import Mathlib

/-!
Verification development for the GPP reduction kernel (`gpp/gpp.cpp`).

The kernel `noflagOCC_solver` is embedded as a pure state-passing function
over `ℚ`-valued arrays (flat buffers modelled as total functions, with the
row-major 2D accessor written out explicitly).  The complex scalar type
`CustomComplex` and the 2D accessor macro live in headers that are not part
of the repository snapshot (`CustomComplex.h`, `commonDefines.h`); those two
pieces are modelled from the specification (standard complex algebra,
`flat_index(r, c) = r * cols + c`).  Everything else is translated directly
from `gpp.cpp`.
-/

/-- Modelled from the spec: `CustomComplex<double>` from `CustomComplex.h`
(not in the snapshot) — a pair of floating-point numbers (real, imaginary),
an immutable value type.  Doubles are modelled as rational numbers (exact, computable). -/
structure CustomComplex where
  re : ℚ
  im : ℚ
  deriving Repr

/-- Modelled from the spec: conjugation negates the imaginary component. -/
def CustomComplex.conj (c : CustomComplex) : CustomComplex := ⟨c.re, -c.im⟩

/-- Modelled from the spec: multiplication per the standard complex rule
`(ar*br − ai*bi, ar*bi + ai*br)`. -/
def CustomComplex.mul (a b : CustomComplex) : CustomComplex :=
  ⟨a.re * b.re - a.im * b.im, a.re * b.im + a.im * b.re⟩

instance : Mul CustomComplex := ⟨CustomComplex.mul⟩

/-- Modelled from the spec: scalar multiplication distributes over both
components (`operator*(CustomComplex, double)`). -/
def cmulr (c : CustomComplex) (r : ℚ) : CustomComplex := ⟨c.re * r, c.im * r⟩

/-- Modelled from the spec: subtraction of a complex from a real scalar,
element-wise with the real promoted to `(d, 0)`
(`operator-(double, CustomComplex)`). -/
def rsubc (d : ℚ) (c : CustomComplex) : CustomComplex := ⟨d - c.re, -c.im⟩

/-- Modelled from the spec: the row-major 2D accessor macro from
`commonDefines.h` (not in the snapshot): `flat_index(r, c) = r * cols + c`
over a flat buffer. -/
def acc2 (a : ℤ → CustomComplex) (cols : ℕ) (r c : ℤ) : CustomComplex :=
  a (r * (cols : ℤ) + c)

/-- Loop lower bound, `#define nstart 0` in `gpp.cpp`. -/
def nstart : ℕ := 0

/-- Loop upper bound, `#define nend 3` in `gpp.cpp`. -/
def nend : ℕ := 3

/-- The state visible to `noflagOCC_solver`: the sizes, the input arrays and
the two accumulator arrays.  Flat buffers are total functions (reads at any
index are defined; the bounds claims are proved about the index values).
Index arrays hold C `int`s, modelled as `ℤ`. -/
structure GppState where
  number_bands : ℕ
  ngpown : ℕ
  ncouls : ℕ
  inv_igp_index : ℕ → ℤ
  indinv : ℤ → ℤ
  wx_array : ℕ → ℚ
  wtilde_array : ℤ → CustomComplex
  aqsmtemp : ℤ → CustomComplex
  aqsntemp : ℤ → CustomComplex
  I_eps_array : ℤ → CustomComplex
  vcoul : ℤ → ℚ
  achtemp_re : ℕ → ℚ
  achtemp_im : ℕ → ℚ

/-- Pointwise array update, the meaning of `a[i] = v` on a flat buffer. -/
def updAt (f : ℕ → ℚ) (i : ℕ) (v : ℚ) : ℕ → ℚ :=
  fun j => if j = i then v else f j

/-- The complex term `sch_array` computed in the innermost loop body of
`noflagOCC_solver` (gpp.cpp lines 112-119), for indices
`(n1, my_igp, ig, iw)` with `igp` already resolved:
`wdiff = wx_array[iw] - wtilde_array(my_igp, ig)`,
`delw  = wtilde_array(my_igp, ig) * conj(wdiff) * (1 / real(wdiff * conj(wdiff)))`,
`sch   = delw * I_eps_array(my_igp, ig) * conj(aqsmtemp(n1, igp))
           * aqsntemp(n1, igp) * 0.5 * vcoul[igp]`. -/
def schTerm (s : GppState) (n1 my_igp : ℕ) (igp : ℤ) (ig iw : ℕ) : CustomComplex :=
  let wt := acc2 s.wtilde_array s.ncouls (my_igp : ℤ) (ig : ℤ)
  let wdiff := rsubc (s.wx_array iw) wt
  let delw := cmulr (wt * wdiff.conj) (1 / (wdiff * wdiff.conj).re)
  cmulr (cmulr (delw * acc2 s.I_eps_array s.ncouls (my_igp : ℤ) (ig : ℤ)
      * (acc2 s.aqsmtemp s.ncouls (n1 : ℤ) igp).conj
      * acc2 s.aqsntemp s.ncouls (n1 : ℤ) igp) 0.5) (s.vcoul igp)

/-- One iteration of the innermost (`iw`) loop:
`achtemp_re[iw] += sch_array.real(); achtemp_im[iw] += sch_array.imag();`. -/
def iwStep (s : GppState) (n1 my_igp : ℕ) (igp : ℤ) (ig : ℕ)
    (a : (ℕ → ℚ) × (ℕ → ℚ)) (iw : ℕ) : (ℕ → ℚ) × (ℕ → ℚ) :=
  (updAt a.1 iw (a.1 iw + (schTerm s n1 my_igp igp ig iw).re),
   updAt a.2 iw (a.2 iw + (schTerm s n1 my_igp igp ig iw).im))

/-- The `iw` loop (`for iw = nstart; iw < nend`). -/
def iwLoop (s : GppState) (n1 my_igp : ℕ) (igp : ℤ) (ig : ℕ)
    (a : (ℕ → ℚ) × (ℕ → ℚ)) : (ℕ → ℚ) × (ℕ → ℚ) :=
  (List.range nend).foldl (iwStep s n1 my_igp igp ig) a

/-- The `ig` loop (`for ig = 0; ig < ncouls`). -/
def igLoop (s : GppState) (n1 my_igp : ℕ) (igp : ℤ)
    (a : (ℕ → ℚ) × (ℕ → ℚ)) : (ℕ → ℚ) × (ℕ → ℚ) :=
  (List.range s.ncouls).foldl (fun a ig => iwLoop s n1 my_igp igp ig a) a

/-- The `my_igp` loop, performing the index resolution
`indigp = inv_igp_index[my_igp]; igp = indinv[indigp];` once per group point. -/
def mgLoop (s : GppState) (n1 : ℕ)
    (a : (ℕ → ℚ) × (ℕ → ℚ)) : (ℕ → ℚ) × (ℕ → ℚ) :=
  (List.range s.ngpown).foldl
    (fun a my_igp => igLoop s n1 my_igp (s.indinv (s.inv_igp_index my_igp)) a) a

/-- The outer `n1` loop over bands. -/
def n1Loop (s : GppState) (a : (ℕ → ℚ) × (ℕ → ℚ)) : (ℕ → ℚ) × (ℕ → ℚ) :=
  (List.range s.number_bands).foldl (fun a n1 => mgLoop s n1 a) a

/-- The kernel `noflagOCC_solver` (gpp.cpp lines 78-133): runs the four-level
loop nest starting from the caller-provided accumulators and returns the
state with the updated accumulator arrays (timing is dropped). -/
def noflagOCC_solver (s : GppState) : GppState :=
  { s with
    achtemp_re := (n1Loop s (s.achtemp_re, s.achtemp_im)).1
    achtemp_im := (n1Loop s (s.achtemp_re, s.achtemp_im)).2 }

/-- The caller's derivation `int ngpown = ncouls / nodes_per_group;`
(gpp.cpp line 192), C integer division on non-negative values. -/
def derive_ngpown (ncouls nodes_per_group : ℕ) : ℕ :=
  ncouls / nodes_per_group

/-- The caller's initialization of `inv_igp_index`
(`inv_igp_index[ig] = (ig + 1) * ncouls / ngpown;`, gpp.cpp line 304). -/
def inv_igp_index_init (ncouls ngpown : ℕ) : ℕ → ℕ :=
  fun ig => (ig + 1) * ncouls / ngpown

/-- The caller's initialization of `indinv`
(`indinv[ig] = ig` for `ig < ncouls`, with the boundary sentinel
`indinv[ncouls] = ncouls - 1;`, gpp.cpp lines 306-308). -/
def indinv_init (ncouls : ℕ) : ℕ → ℕ :=
  fun i => if i < ncouls then i else ncouls - 1

/-- The pass condition of the `correctness` check (gpp.cpp lines 37-76):
signed differences against the hardcoded reference values, both strictly
below `0.00001`; `problem_size = 0` selects the benchmark references.
When the condition fails the program exits with `EXIT_FAILURE`. -/
def correctness_ok (problem_size : ℤ) (result : CustomComplex) : Prop :=
  if problem_size = 0 then
    result.re - -24852.551547 < 0.00001 ∧ result.im - 2957453.638101 < 0.00001
  else
    result.re - -0.096066 < 0.00001 ∧ result.im - 11.431852 < 0.00001

/-- Real part added to slot `j` by the whole kernel: the sum over all
`(n1, my_igp, ig, iw)` tuples of the `sch` real part, landing in slot `iw`. -/
def kernelSumRe (s : GppState) (j : ℕ) : ℚ :=
  ∑ n1 ∈ Finset.range s.number_bands, ∑ mg ∈ Finset.range s.ngpown,
    ∑ ig ∈ Finset.range s.ncouls, ∑ iw ∈ Finset.range nend,
      if j = iw then (schTerm s n1 mg (s.indinv (s.inv_igp_index mg)) ig iw).re else 0

/-- Imaginary part added to slot `j` by the whole kernel. -/
def kernelSumIm (s : GppState) (j : ℕ) : ℚ :=
  ∑ n1 ∈ Finset.range s.number_bands, ∑ mg ∈ Finset.range s.ngpown,
    ∑ ig ∈ Finset.range s.ncouls, ∑ iw ∈ Finset.range nend,
      if j = iw then (schTerm s n1 mg (s.indinv (s.inv_igp_index mg)) ig iw).im else 0

/-- Concrete 1×1×1 example state used by the closed witnesses. -/
def exState : GppState where
  number_bands := 1
  ngpown := 1
  ncouls := 1
  inv_igp_index := fun _ => 0
  indinv := fun _ => 0
  wx_array := fun _ => 3
  wtilde_array := fun _ => ⟨1, 0⟩
  aqsmtemp := fun _ => ⟨1, 0⟩
  aqsntemp := fun _ => ⟨1, 0⟩
  I_eps_array := fun _ => ⟨1, 0⟩
  vcoul := fun _ => 2
  achtemp_re := fun _ => 5
  achtemp_im := fun _ => 5

/-- Concrete example state with `number_bands = 0` for the C4 witness. -/
def exStateZeroBands : GppState :=
  { exState with number_bands := 0 }

/-- State with both accumulator arrays zeroed, as the caller does before
invoking the kernel (gpp.cpp lines 310-314). -/
def zeroAcc (s : GppState) : GppState :=
  { s with
      achtemp_re := fun _ => 0
      achtemp_im := fun _ => 0 }

/-- State with every entry of `vcoul` multiplied by the constant `k`. -/
def scaleVcoul (k : ℚ) (s : GppState) : GppState :=
  { s with vcoul := fun i => k * s.vcoul i }

/-- The complex constant `expr = (0.025, 0.025)` the caller uses to fill all
complex input arrays (gpp.cpp line 217). -/
def expr : CustomComplex := ⟨0.025, 0.025⟩

/-- Reference scenario A, the "test" sizing as the caller builds it
(gpp.cpp lines 148-151, 192, 263-321): `number_bands = 512`, `ncouls = 512`,
`ngpown = 512 / 20 = 25`; all complex arrays filled with `expr`;
`vcoul[i] = i * 0.025`; `inv_igp_index[ig] = (ig + 1) * ncouls / ngpown`;
`indinv[ig] = ig` with the sentinel `indinv[ncouls] = ncouls - 1`;
`wx_array[iw] = e_lk - e_n1kq + dw * ((iw + 1) - 2)` clamped below at `1e-6`
with `e_lk = 10`, `e_n1kq = 6`, `dw = 1`; accumulators zeroed. -/
def scenarioA : GppState where
  number_bands := 512
  ngpown := 25
  ncouls := 512
  inv_igp_index := fun ig => (inv_igp_index_init 512 25 ig : ℤ)
  indinv := fun i => if i < 512 then i else 511
  wx_array := fun iw =>
    if (10 : ℚ) - 6 + 1 * (((iw : ℚ) + 1) - 2) < 1e-6 then 1e-6
    else (10 : ℚ) - 6 + 1 * (((iw : ℚ) + 1) - 2)
  wtilde_array := fun _ => expr
  aqsmtemp := fun _ => expr
  aqsntemp := fun _ => expr
  I_eps_array := fun _ => expr
  vcoul := fun i => (i : ℚ) * 0.025
  achtemp_re := fun _ => 0
  achtemp_im := fun _ => 0

/-- Generic additive-fold lemma: a fold over `List.range n` whose step adds
`g i j` (resp. `h i j`) to slot `j` of the first (resp. second) component
adds the corresponding sums over `i < n`. -/
theorem foldl_range_addpair
    (step : ((ℕ → ℚ) × (ℕ → ℚ)) → ℕ → ((ℕ → ℚ) × (ℕ → ℚ)))
    (g h : ℕ → ℕ → ℚ)
    (hstep : ∀ a i j, (step a i).1 j = a.1 j + g i j ∧ (step a i).2 j = a.2 j + h i j) :
    ∀ (n : ℕ) (a : (ℕ → ℚ) × (ℕ → ℚ)) (j : ℕ),
      ((List.range n).foldl step a).1 j = a.1 j + ∑ i ∈ Finset.range n, g i j ∧
      ((List.range n).foldl step a).2 j = a.2 j + ∑ i ∈ Finset.range n, h i j := by
  intro n
  induction n with
  | zero => intro a j; simp
  | succ m ih =>
    intro a j
    rw [List.range_succ, List.foldl_append, List.foldl_cons, List.foldl_nil,
        Finset.sum_range_succ, Finset.sum_range_succ]
    have h1 := hstep ((List.range m).foldl step a) m j
    have h2 := ih a j
    refine ⟨?_, ?_⟩
    · rw [h1.1, h2.1, add_assoc]
    · rw [h1.2, h2.2, add_assoc]

theorem iwLoop_adds (s : GppState) (n1 my_igp : ℕ) (igp : ℤ) (ig : ℕ)
    (a : (ℕ → ℚ) × (ℕ → ℚ)) (j : ℕ) :
    (iwLoop s n1 my_igp igp ig a).1 j
      = a.1 j + ∑ iw ∈ Finset.range nend,
          (if j = iw then (schTerm s n1 my_igp igp ig iw).re else 0) ∧
    (iwLoop s n1 my_igp igp ig a).2 j
      = a.2 j + ∑ iw ∈ Finset.range nend,
          (if j = iw then (schTerm s n1 my_igp igp ig iw).im else 0) := by
  unfold iwLoop
  refine foldl_range_addpair (iwStep s n1 my_igp igp ig)
    (fun iw j => if j = iw then (schTerm s n1 my_igp igp ig iw).re else 0)
    (fun iw j => if j = iw then (schTerm s n1 my_igp igp ig iw).im else 0)
    ?_ nend a j
  intro a iw j
  unfold iwStep updAt
  constructor <;> · by_cases hj : j = iw <;> simp [hj]

theorem igLoop_adds (s : GppState) (n1 my_igp : ℕ) (igp : ℤ)
    (a : (ℕ → ℚ) × (ℕ → ℚ)) (j : ℕ) :
    (igLoop s n1 my_igp igp a).1 j
      = a.1 j + ∑ ig ∈ Finset.range s.ncouls, ∑ iw ∈ Finset.range nend,
          (if j = iw then (schTerm s n1 my_igp igp ig iw).re else 0) ∧
    (igLoop s n1 my_igp igp a).2 j
      = a.2 j + ∑ ig ∈ Finset.range s.ncouls, ∑ iw ∈ Finset.range nend,
          (if j = iw then (schTerm s n1 my_igp igp ig iw).im else 0) := by
  unfold igLoop
  refine foldl_range_addpair (fun a ig => iwLoop s n1 my_igp igp ig a)
    (fun ig j => ∑ iw ∈ Finset.range nend,
      if j = iw then (schTerm s n1 my_igp igp ig iw).re else 0)
    (fun ig j => ∑ iw ∈ Finset.range nend,
      if j = iw then (schTerm s n1 my_igp igp ig iw).im else 0)
    ?_ s.ncouls a j
  intro a ig j
  exact iwLoop_adds s n1 my_igp igp ig a j

theorem mgLoop_adds (s : GppState) (n1 : ℕ)
    (a : (ℕ → ℚ) × (ℕ → ℚ)) (j : ℕ) :
    (mgLoop s n1 a).1 j
      = a.1 j + ∑ mg ∈ Finset.range s.ngpown, ∑ ig ∈ Finset.range s.ncouls,
          ∑ iw ∈ Finset.range nend,
          (if j = iw then
            (schTerm s n1 mg (s.indinv (s.inv_igp_index mg)) ig iw).re else 0) ∧
    (mgLoop s n1 a).2 j
      = a.2 j + ∑ mg ∈ Finset.range s.ngpown, ∑ ig ∈ Finset.range s.ncouls,
          ∑ iw ∈ Finset.range nend,
          (if j = iw then
            (schTerm s n1 mg (s.indinv (s.inv_igp_index mg)) ig iw).im else 0) := by
  unfold mgLoop
  refine foldl_range_addpair
    (fun a my_igp => igLoop s n1 my_igp (s.indinv (s.inv_igp_index my_igp)) a)
    (fun mg j => ∑ ig ∈ Finset.range s.ncouls, ∑ iw ∈ Finset.range nend,
      if j = iw then (schTerm s n1 mg (s.indinv (s.inv_igp_index mg)) ig iw).re else 0)
    (fun mg j => ∑ ig ∈ Finset.range s.ncouls, ∑ iw ∈ Finset.range nend,
      if j = iw then (schTerm s n1 mg (s.indinv (s.inv_igp_index mg)) ig iw).im else 0)
    ?_ s.ngpown a j
  intro a mg j
  exact igLoop_adds s n1 mg (s.indinv (s.inv_igp_index mg)) a j

/-- Master characterization: the kernel adds exactly `kernelSumRe`/`kernelSumIm`
to every slot of the accumulators. -/
theorem noflagOCC_solver_adds (s : GppState) (j : ℕ) :
    (noflagOCC_solver s).achtemp_re j = s.achtemp_re j + kernelSumRe s j ∧
    (noflagOCC_solver s).achtemp_im j = s.achtemp_im j + kernelSumIm s j := by
  unfold noflagOCC_solver n1Loop kernelSumRe kernelSumIm
  refine foldl_range_addpair (fun a n1 => mgLoop s n1 a)
    (fun n1 j => ∑ mg ∈ Finset.range s.ngpown, ∑ ig ∈ Finset.range s.ncouls,
      ∑ iw ∈ Finset.range nend,
      if j = iw then (schTerm s n1 mg (s.indinv (s.inv_igp_index mg)) ig iw).re else 0)
    (fun n1 j => ∑ mg ∈ Finset.range s.ngpown, ∑ ig ∈ Finset.range s.ncouls,
      ∑ iw ∈ Finset.range nend,
      if j = iw then (schTerm s n1 mg (s.indinv (s.inv_igp_index mg)) ig iw).im else 0)
    ?_ s.number_bands (s.achtemp_re, s.achtemp_im) j
  intro a n1 j
  exact mgLoop_adds s n1 a j

theorem CustomComplex.mul_re (a b : CustomComplex) :
    (a * b).re = a.re * b.re - a.im * b.im := rfl

theorem CustomComplex.mul_im (a b : CustomComplex) :
    (a * b).im = a.re * b.im + a.im * b.re := rfl

theorem CustomComplex.conj_re (a : CustomComplex) : a.conj.re = a.re := rfl

theorem CustomComplex.conj_im (a : CustomComplex) : a.conj.im = -a.im := rfl

theorem cmulr_re (c : CustomComplex) (r : ℚ) : (cmulr c r).re = c.re * r := rfl

theorem cmulr_im (c : CustomComplex) (r : ℚ) : (cmulr c r).im = c.im * r := rfl

theorem rsubc_re (d : ℚ) (c : CustomComplex) : (rsubc d c).re = d - c.re := rfl

theorem rsubc_im (d : ℚ) (c : CustomComplex) : (rsubc d c).im = -c.im := rfl

/-- Slots at or beyond `nend` receive nothing from the kernel. -/
theorem kernelSum_out_of_range (s : GppState) (j : ℕ) (hj : nend ≤ j) :
    kernelSumRe s j = 0 ∧ kernelSumIm s j = 0 := by
  constructor <;>
  · refine Finset.sum_eq_zero fun n1 _ => Finset.sum_eq_zero fun mg _ =>
      Finset.sum_eq_zero fun ig _ => Finset.sum_eq_zero fun iw hiw => ?_
    rw [Finset.mem_range] at hiw
    rw [if_neg]
    omega

/-- Claim C1: after `noflagOCC_solver` returns, for each frequency index
`iw` in `[0, 3)` the accumulators `achtemp_re[iw]` and `achtemp_im[iw]`
equal their initial values plus the sum over all triples `(n1, my_igp, ig)`
of the real and imaginary parts of `sch`, where
`igp = indinv[inv_igp_index[my_igp]]`,
`wdiff = wx_array[iw] - wtilde_array(my_igp, ig)`,
`delw = wtilde_array(my_igp, ig) * conj(wdiff) * (1 / real(wdiff * conj(wdiff)))`,
`sch = delw * I_eps_array(my_igp, ig) * conj(aqsmtemp(n1, igp)) * aqsntemp(n1, igp)
       * 0.5 * vcoul[igp]`,
and the 2D accessors use row-major addressing `flat_index(r, c) = r * cols + c`
(written out literally below). -/
theorem noflagOCC_achtemp_eq_init_add_sum (s : GppState) (iw : ℕ) (hiw : iw < 3) :
    (noflagOCC_solver s).achtemp_re iw
      = s.achtemp_re iw + ∑ n1 ∈ Finset.range s.number_bands,
          ∑ my_igp ∈ Finset.range s.ngpown, ∑ ig ∈ Finset.range s.ncouls,
          (let igp := s.indinv (s.inv_igp_index my_igp)
           let wt := s.wtilde_array ((my_igp : ℤ) * (s.ncouls : ℤ) + (ig : ℤ))
           let wdiff := rsubc (s.wx_array iw) wt
           let delw := cmulr (wt * wdiff.conj) (1 / (wdiff * wdiff.conj).re)
           (cmulr (cmulr (delw * s.I_eps_array ((my_igp : ℤ) * (s.ncouls : ℤ) + (ig : ℤ))
              * (s.aqsmtemp ((n1 : ℤ) * (s.ncouls : ℤ) + igp)).conj
              * s.aqsntemp ((n1 : ℤ) * (s.ncouls : ℤ) + igp)) 0.5) (s.vcoul igp)).re) ∧
    (noflagOCC_solver s).achtemp_im iw
      = s.achtemp_im iw + ∑ n1 ∈ Finset.range s.number_bands,
          ∑ my_igp ∈ Finset.range s.ngpown, ∑ ig ∈ Finset.range s.ncouls,
          (let igp := s.indinv (s.inv_igp_index my_igp)
           let wt := s.wtilde_array ((my_igp : ℤ) * (s.ncouls : ℤ) + (ig : ℤ))
           let wdiff := rsubc (s.wx_array iw) wt
           let delw := cmulr (wt * wdiff.conj) (1 / (wdiff * wdiff.conj).re)
           (cmulr (cmulr (delw * s.I_eps_array ((my_igp : ℤ) * (s.ncouls : ℤ) + (ig : ℤ))
              * (s.aqsmtemp ((n1 : ℤ) * (s.ncouls : ℤ) + igp)).conj
              * s.aqsntemp ((n1 : ℤ) * (s.ncouls : ℤ) + igp)) 0.5) (s.vcoul igp)).im) := by
  have h := noflagOCC_solver_adds s iw
  have hiw3 : iw < nend := hiw
  refine ⟨?_, ?_⟩
  · rw [h.1]
    congr 1
    unfold kernelSumRe
    refine Finset.sum_congr rfl fun n1 _ => Finset.sum_congr rfl fun mg _ =>
      Finset.sum_congr rfl fun ig _ => ?_
    rw [Finset.sum_ite_eq, if_pos (Finset.mem_range.mpr hiw3)]
    rfl
  · rw [h.2]
    congr 1
    unfold kernelSumIm
    refine Finset.sum_congr rfl fun n1 _ => Finset.sum_congr rfl fun mg _ =>
      Finset.sum_congr rfl fun ig _ => ?_
    rw [Finset.sum_ite_eq, if_pos (Finset.mem_range.mpr hiw3)]
    rfl

/-- Witness for C1 at the concrete example state: the single `sch` term at
`iw = 0` is `(1/2, 0)`, so slot 0 becomes `5 + 1/2`. -/
theorem noflagOCC_achtemp_eq_init_add_sum_witness :
    (noflagOCC_solver exState).achtemp_re 0 = 11 / 2 ∧
    (noflagOCC_solver exState).achtemp_im 0 = 5 := by
  have h := noflagOCC_achtemp_eq_init_add_sum exState 0 (by decide)
  refine ⟨?_, ?_⟩
  · rw [h.1]
    simp only [exState]
    norm_num [Finset.sum_range_succ, CustomComplex.mul_re, CustomComplex.mul_im,
      CustomComplex.conj_re, CustomComplex.conj_im, cmulr_re, cmulr_im,
      rsubc_re, rsubc_im]
  · rw [h.2]
    simp only [exState]
    norm_num [Finset.sum_range_succ, CustomComplex.mul_re, CustomComplex.mul_im,
      CustomComplex.conj_re, CustomComplex.conj_im, cmulr_re, cmulr_im,
      rsubc_re, rsubc_im]

/-- Claim C2: `noflagOCC_solver` mutates only the two accumulator arrays,
and only their 3 slots `[0, nend)`: every other state component (all input
arrays and the size parameters) is returned unchanged, and accumulator
slots at index `>= 3` keep their initial values. -/
theorem noflagOCC_solver_frame (s : GppState) :
    (noflagOCC_solver s).number_bands = s.number_bands ∧
    (noflagOCC_solver s).ngpown = s.ngpown ∧
    (noflagOCC_solver s).ncouls = s.ncouls ∧
    (noflagOCC_solver s).inv_igp_index = s.inv_igp_index ∧
    (noflagOCC_solver s).indinv = s.indinv ∧
    (noflagOCC_solver s).wx_array = s.wx_array ∧
    (noflagOCC_solver s).wtilde_array = s.wtilde_array ∧
    (noflagOCC_solver s).aqsmtemp = s.aqsmtemp ∧
    (noflagOCC_solver s).aqsntemp = s.aqsntemp ∧
    (noflagOCC_solver s).I_eps_array = s.I_eps_array ∧
    (noflagOCC_solver s).vcoul = s.vcoul ∧
    ∀ j, 3 ≤ j →
      (noflagOCC_solver s).achtemp_re j = s.achtemp_re j ∧
      (noflagOCC_solver s).achtemp_im j = s.achtemp_im j := by
  refine ⟨rfl, rfl, rfl, rfl, rfl, rfl, rfl, rfl, rfl, rfl, rfl, ?_⟩
  intro j hj
  have h := noflagOCC_solver_adds s j
  have hz := kernelSum_out_of_range s j hj
  exact ⟨by rw [h.1, hz.1, add_zero], by rw [h.2, hz.2, add_zero]⟩

/-- Witness for C2 at the concrete example state, reading back one input
array and an out-of-range accumulator slot. -/
theorem noflagOCC_solver_frame_witness :
    (noflagOCC_solver exState).vcoul = exState.vcoul ∧
    (noflagOCC_solver exState).achtemp_re 5 = exState.achtemp_re 5 := by
  have h := noflagOCC_solver_frame exState
  exact ⟨h.2.2.2.2.2.2.2.2.2.2.1, (h.2.2.2.2.2.2.2.2.2.2.2 5 (by decide)).1⟩

/-- Claim C3: under the caller's initialization, for every `my_igp < ngpown`
(with `ngpown ≥ 1`, `ncouls ≥ 1`) the first lookup value
`inv_igp_index[my_igp]` lies in `[0, ncouls]` (so both lookups are in
bounds, `indinv` having `ncouls + 1` slots) and the resolved `igp` lies in
`[0, ncouls)` (lower bounds are automatic in `ℕ`). -/
theorem resolve_in_bounds (ncouls ngpown my_igp : ℕ)
    (hg : 1 ≤ ngpown) (hc : 1 ≤ ncouls) (hmg : my_igp < ngpown) :
    inv_igp_index_init ncouls ngpown my_igp ≤ ncouls ∧
    indinv_init ncouls (inv_igp_index_init ncouls ngpown my_igp) < ncouls := by
  have hle : inv_igp_index_init ncouls ngpown my_igp ≤ ncouls := by
    unfold inv_igp_index_init
    calc (my_igp + 1) * ncouls / ngpown
        ≤ ngpown * ncouls / ngpown := Nat.div_le_div_right (Nat.mul_le_mul_right _ hmg)
      _ = ncouls := Nat.mul_div_cancel_left _ hg
  refine ⟨hle, ?_⟩
  unfold indinv_init
  by_cases h : inv_igp_index_init ncouls ngpown my_igp < ncouls
  · rw [if_pos h]; exact h
  · rw [if_neg h]; omega

/-- Witness for C3 at the test sizing `ncouls = 512`, `ngpown = 25`, at the
last group point `my_igp = 24` (the one that hits the sentinel slot). -/
theorem resolve_in_bounds_witness :
    inv_igp_index_init 512 25 24 ≤ 512 ∧
    indinv_init 512 (inv_igp_index_init 512 25 24) < 512 :=
  resolve_in_bounds 512 25 24 (by decide) (by decide) (by decide)

/-- Claim C4: if `number_bands = 0` or `ngpown = 0`, the kernel leaves both
accumulator arrays exactly unchanged, whatever the other arrays contain. -/
theorem noflagOCC_solver_zero_sizes (s : GppState)
    (h : s.number_bands = 0 ∨ s.ngpown = 0) :
    (noflagOCC_solver s).achtemp_re = s.achtemp_re ∧
    (noflagOCC_solver s).achtemp_im = s.achtemp_im := by
  have hz : ∀ j, kernelSumRe s j = 0 ∧ kernelSumIm s j = 0 := by
    intro j
    rcases h with h | h
    · constructor <;> simp [kernelSumRe, kernelSumIm, h]
    · constructor <;> simp [kernelSumRe, kernelSumIm, h]
  constructor <;> funext j
  · rw [(noflagOCC_solver_adds s j).1, (hz j).1, add_zero]
  · rw [(noflagOCC_solver_adds s j).2, (hz j).2, add_zero]

/-- Witness for C4: with zero bands the accumulators are returned as given. -/
theorem noflagOCC_solver_zero_sizes_witness :
    (noflagOCC_solver exStateZeroBands).achtemp_re = exStateZeroBands.achtemp_re ∧
    (noflagOCC_solver exStateZeroBands).achtemp_im = exStateZeroBands.achtemp_im :=
  noflagOCC_solver_zero_sizes exStateZeroBands (Or.inl rfl)

/-- Scaling `vcoul` scales each `sch` term: `vcoul` enters only as the final
scalar factor of the innermost product. -/
theorem schTerm_vcoul_smul (s : GppState) (k : ℚ) (n1 mg : ℕ) (igp : ℤ) (ig iw : ℕ) :
    (schTerm { s with vcoul := fun i => k * s.vcoul i } n1 mg igp ig iw).re
      = k * (schTerm s n1 mg igp ig iw).re ∧
    (schTerm { s with vcoul := fun i => k * s.vcoul i } n1 mg igp ig iw).im
      = k * (schTerm s n1 mg igp ig iw).im := by
  constructor <;>
  · simp only [schTerm, acc2, cmulr_re, cmulr_im]
    ring

/-- Scaling `vcoul` scales the total kernel sums. -/
theorem kernelSum_vcoul_smul (s : GppState) (k : ℚ) (j : ℕ) :
    kernelSumRe { s with vcoul := fun i => k * s.vcoul i } j = k * kernelSumRe s j ∧
    kernelSumIm { s with vcoul := fun i => k * s.vcoul i } j = k * kernelSumIm s j := by
  unfold kernelSumRe kernelSumIm
  constructor <;>
  · rw [Finset.mul_sum]
    refine Finset.sum_congr rfl fun n1 _ => ?_
    rw [Finset.mul_sum]
    refine Finset.sum_congr rfl fun mg _ => ?_
    rw [Finset.mul_sum]
    refine Finset.sum_congr rfl fun ig _ => ?_
    rw [Finset.mul_sum]
    refine Finset.sum_congr rfl fun iw _ => ?_
    by_cases hj : j = iw
    · simp only [hj, if_pos]
      first
      | exact (schTerm_vcoul_smul s k n1 mg (s.indinv (s.inv_igp_index mg)) ig iw).1
      | exact (schTerm_vcoul_smul s k n1 mg (s.indinv (s.inv_igp_index mg)) ig iw).2
    · simp [hj]

/-- Claim C5: running the kernel with every entry of `vcoul` multiplied by a
constant `k` (all other inputs fixed, accumulators zeroed) produces final
accumulators equal to `k` times the values produced with the original
`vcoul`, for each `iw` in `[0, 3)`. -/
theorem noflagOCC_solver_vcoul_linear (s : GppState) (k : ℚ) (iw : ℕ) (hiw : iw < 3) :
    (noflagOCC_solver (zeroAcc (scaleVcoul k s))).achtemp_re iw
      = k * (noflagOCC_solver (zeroAcc s)).achtemp_re iw ∧
    (noflagOCC_solver (zeroAcc (scaleVcoul k s))).achtemp_im iw
      = k * (noflagOCC_solver (zeroAcc s)).achtemp_im iw := by
  have hs := noflagOCC_solver_adds (zeroAcc (scaleVcoul k s)) iw
  have h0 := noflagOCC_solver_adds (zeroAcc s) iw
  have hk := kernelSum_vcoul_smul (zeroAcc s) k iw
  constructor
  · rw [hs.1, h0.1]
    show (0 : ℚ) + kernelSumRe (zeroAcc (scaleVcoul k s)) iw
      = k * ((0 : ℚ) + kernelSumRe (zeroAcc s) iw)
    rw [zero_add, zero_add]
    exact hk.1
  · rw [hs.2, h0.2]
    show (0 : ℚ) + kernelSumIm (zeroAcc (scaleVcoul k s)) iw
      = k * ((0 : ℚ) + kernelSumIm (zeroAcc s) iw)
    rw [zero_add, zero_add]
    exact hk.2

/-- Witness for C5 at the concrete example state with `k = 3`. -/
theorem noflagOCC_solver_vcoul_linear_witness :
    (noflagOCC_solver (zeroAcc (scaleVcoul 3 exState))).achtemp_re 0
      = 3 * (noflagOCC_solver (zeroAcc exState)).achtemp_re 0 ∧
    (noflagOCC_solver (zeroAcc (scaleVcoul 3 exState))).achtemp_im 0
      = 3 * (noflagOCC_solver (zeroAcc exState)).achtemp_im 0 :=
  noflagOCC_solver_vcoul_linear exState 3 0 (by decide)

/-- Claim C6: the kernel only adds.  For every initial accumulator contents
and every slot `j`, the final values equal the initial values plus the
values the kernel produces when started from all-zero accumulators. -/
theorem noflagOCC_solver_add_only (s : GppState) (j : ℕ) :
    (noflagOCC_solver s).achtemp_re j
      = s.achtemp_re j + (noflagOCC_solver (zeroAcc s)).achtemp_re j ∧
    (noflagOCC_solver s).achtemp_im j
      = s.achtemp_im j + (noflagOCC_solver (zeroAcc s)).achtemp_im j := by
  have h := noflagOCC_solver_adds s j
  have h0 := noflagOCC_solver_adds (zeroAcc s) j
  constructor
  · rw [h.1, h0.1]
    show s.achtemp_re j + kernelSumRe s j
      = s.achtemp_re j + ((0 : ℚ) + kernelSumRe (zeroAcc s) j)
    rw [zero_add]
    rfl
  · rw [h.2, h0.2]
    show s.achtemp_im j + kernelSumIm s j
      = s.achtemp_im j + ((0 : ℚ) + kernelSumIm (zeroAcc s) j)
    rw [zero_add]
    rfl

/-- Claim C7 counterexample: for the built-in sizings the caller's derived
`ngpown = ncouls / nodes_per_group` does not satisfy
`ngpown * nodes_per_group = ncouls`: `(512 / 20) * 20 = 500 ≠ 512` and
`(32768 / 20) * 20 = 32760 ≠ 32768`. -/
theorem derive_ngpown_not_divisible :
    derive_ngpown 512 20 * 20 ≠ 512 ∧ derive_ngpown 32768 20 * 20 ≠ 32768 := by
  decide

/-- Claim C7 amended: the caller derives `ngpown` by truncating integer
division (`25` for the test sizing, `1638` for the benchmark sizing);
divisibility does not hold, only `ngpown * nodes_per_group ≤ ncouls`. -/
theorem derive_ngpown_floor :
    derive_ngpown 512 20 = 25 ∧ derive_ngpown 32768 20 = 1638 ∧
    ∀ ncouls nodes_per_group : ℕ,
      derive_ngpown ncouls nodes_per_group * nodes_per_group ≤ ncouls := by
  refine ⟨by decide, by decide, fun nc g => Nat.div_mul_le_self nc g⟩

/-- Claim C8: the kernel is deterministic — equal inputs (sizes, arrays and
initial accumulator contents) give equal final states; the embedded kernel
is a pure function of its state. -/
theorem noflagOCC_solver_deterministic (s₁ s₂ : GppState) (h : s₁ = s₂) :
    noflagOCC_solver s₁ = noflagOCC_solver s₂ := by
  rw [h]

/-- Witness for C8: two runs on the concrete example state agree. -/
theorem noflagOCC_solver_deterministic_witness :
    noflagOCC_solver exState = noflagOCC_solver exState :=
  noflagOCC_solver_deterministic exState exState rfl

/-- In scenario A every `sch` term at frequency index 0 depends only on the
resolved column `igp`, through `vcoul`: its value is
`(-1 + 119i) * igp / 18127360000`. -/
theorem scenarioA_schTerm (n1 mg : ℕ) (igp : ℤ) (ig : ℕ) :
    (schTerm scenarioA n1 mg igp ig 0).re = -(igp : ℚ) / 18127360000 ∧
    (schTerm scenarioA n1 mg igp ig 0).im = 119 * (igp : ℚ) / 18127360000 := by
  constructor <;>
  · simp only [schTerm, acc2, scenarioA, expr, cmulr_re, cmulr_im,
      CustomComplex.mul_re, CustomComplex.mul_im, CustomComplex.conj_re,
      CustomComplex.conj_im, rsubc_re, rsubc_im]
    norm_num
    ring

/-- The 25 resolved columns of scenario A sum to 6643 (the last group point
resolves through the sentinel to 511). -/
theorem scenarioA_igp_sum :
    (∑ mg ∈ Finset.range 25, scenarioA.indinv (scenarioA.inv_igp_index mg)) = 6643 := by
  decide

/-- Exact value of the kernel sums of scenario A at frequency index 0. -/
theorem scenarioA_kernelSum :
    kernelSumRe scenarioA 0 = -425152 / 4425625 ∧
    kernelSumIm scenarioA 0 = 50593088 / 4425625 := by
  have hre := fun (n1 mg : ℕ) (igp : ℤ) (ig : ℕ) => (scenarioA_schTerm n1 mg igp ig).1
  have him := fun (n1 mg : ℕ) (igp : ℤ) (ig : ℕ) => (scenarioA_schTerm n1 mg igp ig).2
  constructor
  · unfold kernelSumRe
    simp only [nend, Finset.sum_ite_eq, Finset.mem_range, Nat.zero_lt_succ, if_pos, hre]
    simp only [Finset.sum_const, Finset.card_range, nsmul_eq_mul,
      show scenarioA.number_bands = 512 from rfl, show scenarioA.ncouls = 512 from rfl,
      show scenarioA.ngpown = 25 from rfl]
    simp only [neg_div, Finset.sum_neg_distrib, mul_neg, ← Finset.mul_sum,
      ← Finset.sum_div, ← Int.cast_sum, scenarioA_igp_sum]
    norm_num
  · unfold kernelSumIm
    simp only [nend, Finset.sum_ite_eq, Finset.mem_range, Nat.zero_lt_succ, if_pos, him]
    simp only [Finset.sum_const, Finset.card_range, nsmul_eq_mul,
      show scenarioA.number_bands = 512 from rfl, show scenarioA.ncouls = 512 from rfl,
      show scenarioA.ngpown = 25 from rfl]
    simp only [mul_div_assoc, ← Finset.mul_sum, ← Finset.sum_div, ← Int.cast_sum,
      scenarioA_igp_sum]
    norm_num

/-- Claim C9: in reference scenario A (the "test" sizing) the kernel result
for frequency index 0 is within `1e-5` of real part `-0.096066` and
imaginary part `11.431852` (exact rational value
`(-1 + 119i) * 262144 * 6643 / 18127360000`). -/
theorem scenarioA_reference_value :
    |(noflagOCC_solver scenarioA).achtemp_re 0 - -0.096066| < 1e-5 ∧
    |(noflagOCC_solver scenarioA).achtemp_im 0 - 11.431852| < 1e-5 := by
  have h := noflagOCC_solver_adds scenarioA 0
  have hk := scenarioA_kernelSum
  constructor
  · rw [h.1, hk.1, abs_lt]
    constructor <;> norm_num [scenarioA]
  · rw [h.2, hk.2, abs_lt]
    constructor <;> norm_num [scenarioA]

/-- Claim C10: the built-in correctness check is one-sided.  For each
scenario it passes exactly when both signed differences (computed minus
expected, no absolute value) are strictly below `1e-5`; in particular
arbitrarily large negative results also pass.  Failure (either difference
`≥ 1e-5`) is the only case in which the program exits with
`EXIT_FAILURE`. -/
theorem correctness_one_sided :
    (∀ r : CustomComplex, correctness_ok 1 r ↔
      (r.re - -0.096066 < 0.00001 ∧ r.im - 11.431852 < 0.00001)) ∧
    (∀ r : CustomComplex, correctness_ok 0 r ↔
      (r.re - -24852.551547 < 0.00001 ∧ r.im - 2957453.638101 < 0.00001)) ∧
    correctness_ok 1 ⟨-1000000, -1000000⟩ ∧
    correctness_ok 0 ⟨-1000000, -1000000⟩ := by
  refine ⟨fun r => ?_, fun r => ?_, ?_, ?_⟩ <;> simp [correctness_ok] <;> norm_num
